import Mathlib

/-!
Verification of the StudyAI backend against its natural-language specification.

The Python sources are shallowly embedded: Python strings are modelled as
`List Char` (a Python `str` is a sequence of code points), Python `find`/`rfind`
results as `Int` (with -1 for "not found"), and fallible code as `Except`.
Library calls with no algorithmic content (the PDF/DOCX extraction libraries,
the HTTP client, the SQLite engine) are abstracted as oracle parameters or as
explicit list-of-rows state; everything else is translated statement by
statement from the source files `routes/exam_prep.py`, `database.py` and
`routes/word_editor.py`.
-/

namespace StudyAI

/-! ## Python string primitives (on `List Char`) -/

/-- Whitespace test used by Python `str.strip` (the ASCII whitespace range,
which covers every character the repository manipulates). -/
def pyIsSpace (c : Char) : Bool :=
  c = ' ' || c = '\t' || c = '\n' || c = '\r' || c = '\x0b' || c = '\x0c'

/-- Python `s.lstrip()`. -/
def pyLstrip (cs : List Char) : List Char :=
  cs.dropWhile pyIsSpace

/-- Python `s.rstrip()`. -/
def pyRstrip (cs : List Char) : List Char :=
  (cs.reverse.dropWhile pyIsSpace).reverse

/-- Python `s.strip()`. -/
def pyStrip (cs : List Char) : List Char :=
  pyRstrip (pyLstrip cs)

/-- Python `s.lower()` (ASCII range). -/
def pyLower (cs : List Char) : List Char :=
  cs.map Char.toLower

/-- Scanner for Python `s.rfind(c)`: remembers the index of the last
occurrence seen so far, `-1` when none. -/
def pyRfindCharAux (c : Char) : List Char → Nat → Int → Int
  | [], _, acc => acc
  | x :: xs, i, acc => pyRfindCharAux c xs (i + 1) (if x = c then (i : Int) else acc)

/-- Python `s.rfind(c)` for a single-character needle: index of the last
occurrence, `-1` when absent. -/
def pyRfindChar (cs : List Char) (c : Char) : Int :=
  pyRfindCharAux c cs 0 (-1)

/-- Scanner for Python `s.find(c)`. -/
def pyFindCharAux (c : Char) : List Char → Nat → Int
  | [], _ => -1
  | x :: xs, i => if x = c then (i : Int) else pyFindCharAux c xs (i + 1)

/-- Python `s.find(c)` / `s.index(c)` for a single-character needle: index of
the first occurrence, `-1` when absent. -/
def pyFindChar (cs : List Char) (c : Char) : Int :=
  pyFindCharAux c cs 0

/-- Scanner for Python `s.rfind(sub)`: last start index of an occurrence of
`pat`, `-1` when none (for an empty pattern Python answers `len(s)`). -/
def pyRfindSubAux (pat : List Char) : List Char → Nat → Int → Int
  | [], i, acc => if pat = [] then (i : Int) else acc
  | x :: xs, i, acc =>
      pyRfindSubAux pat xs (i + 1) (if pat.isPrefixOf (x :: xs) then (i : Int) else acc)

/-- Python `s.rfind(sub)` for a multi-character needle. -/
def pyRfindSub (cs pat : List Char) : Int :=
  pyRfindSubAux pat cs 0 (-1)

/-- Python slicing `s[a:b]` for nonnegative bounds. -/
def pySlice (cs : List Char) (a b : Nat) : List Char :=
  (cs.drop a).take (b - a)

/-- Python substring test `sub in s`. -/
def isSubstrOf (pat cs : List Char) : Bool :=
  decide (0 ≤ pyRfindSub cs pat)

/-- Python `s.replace(pat, repl)` (all non-overlapping occurrences, scanned
left to right), driven by fuel so that the kernel can evaluate it; the fuel
`cs.length` always suffices because each step consumes at least one
character. -/
def pyReplaceFuel : Nat → List Char → List Char → List Char → List Char
  | 0, cs, _, _ => cs
  | _, [], _, _ => []
  | fuel + 1, x :: xs, pat, repl =>
      if pat ≠ [] ∧ pat.isPrefixOf (x :: xs) then
        repl ++ pyReplaceFuel fuel ((x :: xs).drop pat.length) pat repl
      else
        x :: pyReplaceFuel fuel xs pat repl

/-- Python `s.replace(pat, repl)`. -/
def pyReplace (cs pat repl : List Char) : List Char :=
  pyReplaceFuel cs.length cs pat repl

/-- Python `'\n'.split`-style splitting: `s.split(sep)` for a one-character
separator, keeping empty pieces (so `"".split` gives one empty piece). -/
def pySplitChar (sep : Char) : List Char → List (List Char)
  | [] => [[]]
  | x :: xs =>
      if x = sep then [] :: pySplitChar sep xs
      else
        match pySplitChar sep xs with
        | [] => [[x]]
        | y :: ys => (x :: y) :: ys

/-! ## The chunking loop of `generate_questions_with_groq`
(`routes/exam_prep.py`, lines 169-215). -/

def MAX_CHUNK_SIZE : Nat := 6000

def OVERLAP_SIZE : Nat := 800

/-- One window `[start, stop)` of the chunking loop: `start` is the value of
the loop index `i` when the window was cut, `stop` the absolute position just
past the cut (so the kept chunk is `text[start:stop]`). -/
structure Window where
  start : Nat
  stop : Nat
deriving DecidableEq

/-- The boundary chain of lines 182-199: the four `rfind` calls on the current
chunk and the prioritised comparisons against `chunk_end - 1000/800/500/300`.
Exactly as in the source, the `rfind` results are indices relative to the
chunk while `chunk_end` is an absolute position in the whole text. -/
def chunkBoundary (chunk : List Char) (chunk_end : Nat) : Int :=
  let lqm := pyRfindChar chunk '?'
  let ldn := pyRfindSub chunk ['\n', '\n']
  let lnl := pyRfindChar chunk '\n'
  let lp := pyRfindChar chunk '.'
  let ce : Int := (chunk_end : Int)
  if lqm > ce - 1000 then lqm
  else if ldn > ce - 800 then ldn
  else if lnl > ce - 500 then lnl
  else if lp > ce - 300 then lp
  else -1

/-- One iteration of the `while i < len(text)` loop (lines 175-212): returns
the next value of `i` together with the window that was appended. -/
def chunkStep (text : List Char) (i : Nat) : Nat × Window :=
  let n := text.length
  let chunk_end := min (i + MAX_CHUNK_SIZE) n
  if chunk_end < n then
    let boundary := chunkBoundary (pySlice text i chunk_end) chunk_end
    if boundary > (chunk_end : Int) - 1000 then
      ((((i : Int) + boundary + 1 - (OVERLAP_SIZE : Int)).toNat),
        ⟨i, (((i : Int) + boundary + 1).toNat)⟩)
    else
      (chunk_end - OVERLAP_SIZE, ⟨i, chunk_end⟩)
  else
    (chunk_end, ⟨i, chunk_end⟩)

/-- The chunking loop, run on explicit fuel so that the kernel can evaluate
it; `text.length - i` fuel always suffices because every iteration strictly
increases `i` (proved below). -/
def chunkLoop : Nat → List Char → Nat → List Window
  | 0, _, _ => []
  | fuel + 1, text, i =>
      if i < text.length then
        (chunkStep text i).2 :: chunkLoop fuel text (chunkStep text i).1
      else []

/-- The list of windows the chunking loop produces starting at index `i`. -/
def chunkRecords (text : List Char) (i : Nat) : List Window :=
  chunkLoop (text.length - i) text i

/-- Lines 211-212: a window's chunk is kept only when its stripped text is
non-empty, and the stripped text is what gets appended. -/
def keepChunk (text : List Char) (w : Window) : Option (List Char) :=
  let c := pyStrip (pySlice text w.start w.stop)
  if c = [] then none else some c

/-- The chunk list of `generate_questions_with_groq` (lines 171-215):
texts of at most `MAX_CHUNK_SIZE` characters are a single chunk, longer texts
go through the boundary-splitting loop. -/
def chunkText (text : List Char) : List (List Char) :=
  if MAX_CHUNK_SIZE < text.length then
    (chunkRecords text 0).filterMap (keepChunk text)
  else [text]

/-! ## Basic lemmas about the string primitives -/

theorem pyRfindCharAux_lt (c : Char) :
    ∀ (cs : List Char) (i : Nat) (acc : Int), acc < (i : Int) →
      pyRfindCharAux c cs i acc < (i : Int) + cs.length := by
  intro cs
  induction cs with
  | nil =>
      intro i acc h
      simpa [pyRfindCharAux] using h
  | cons x xs ih =>
      intro i acc h
      have h2 := ih (i + 1) (if x = c then (i : Int) else acc)
        (by split <;> push_cast <;> omega)
      simp only [pyRfindCharAux, List.length_cons]
      push_cast at h2 ⊢
      omega

theorem pyRfindChar_lt (cs : List Char) (c : Char) :
    pyRfindChar cs c < (cs.length : Int) := by
  have := pyRfindCharAux_lt c cs 0 (-1) (by omega)
  simpa [pyRfindChar] using this

theorem pyRfindSubAux_lt (pat : List Char) (hp : pat ≠ []) :
    ∀ (cs : List Char) (i : Nat) (acc : Int), acc < (i : Int) →
      pyRfindSubAux pat cs i acc < (i : Int) + cs.length := by
  intro cs
  induction cs with
  | nil =>
      intro i acc h
      simpa [pyRfindSubAux, hp] using h
  | cons x xs ih =>
      intro i acc h
      have h2 := ih (i + 1) (if pat.isPrefixOf (x :: xs) then (i : Int) else acc)
        (by split <;> push_cast <;> omega)
      simp only [pyRfindSubAux, List.length_cons]
      push_cast at h2 ⊢
      omega

theorem pyRfindSub_lt (cs pat : List Char) (hp : pat ≠ []) :
    pyRfindSub cs pat < (cs.length : Int) := by
  have := pyRfindSubAux_lt pat hp cs 0 (-1) (by omega)
  simpa [pyRfindSub] using this

theorem pyLstrip_length_le (cs : List Char) : (pyLstrip cs).length ≤ cs.length := by
  simpa [pyLstrip] using (List.dropWhile_suffix (l := cs) pyIsSpace).sublist.length_le

theorem pyRstrip_length_le (cs : List Char) : (pyRstrip cs).length ≤ cs.length := by
  simpa [pyRstrip] using
    (List.dropWhile_suffix (l := cs.reverse) pyIsSpace).sublist.length_le

theorem pyStrip_length_le (cs : List Char) : (pyStrip cs).length ≤ cs.length :=
  (pyRstrip_length_le (pyLstrip cs)).trans (pyLstrip_length_le cs)

theorem pySlice_length_le (cs : List Char) (a b : Nat) :
    (pySlice cs a b).length ≤ b - a := by
  simp [pySlice]

/-! ## Lemmas about the chunking loop -/

theorem chunkBoundary_lt (chunk : List Char) (chunk_end : Nat) :
    chunkBoundary chunk chunk_end < (chunk.length : Int) := by
  have h1 := pyRfindChar_lt chunk '?'
  have h2 := pyRfindSub_lt chunk ['\n', '\n'] (by simp)
  have h3 := pyRfindChar_lt chunk '\n'
  have h4 := pyRfindChar_lt chunk '.'
  simp only [chunkBoundary]
  split_ifs <;> omega

theorem chunkStep_start (text : List Char) (i : Nat) :
    (chunkStep text i).2.start = i := by
  simp only [chunkStep]
  split
  · split <;> rfl
  · rfl

/-- The three facts the loop invariants need about one iteration: the window
starts at the current index, spans at most `MAX_CHUNK_SIZE` characters, the
index strictly increases, and either the loop is about to stop (index driven
to the end of the text) or the next window starts exactly `OVERLAP_SIZE`
characters before the current cut. -/
theorem chunkStep_spec (text : List Char) (i : Nat) (h : i < text.length) :
    (chunkStep text i).2.stop ≤ i + MAX_CHUNK_SIZE
    ∧ i < (chunkStep text i).1
    ∧ ((chunkStep text i).1 = text.length
        ∨ (chunkStep text i).2.stop = (chunkStep text i).1 + OVERLAP_SIZE) := by
  have hslice : (pySlice text i (min (i + MAX_CHUNK_SIZE) text.length)).length
      ≤ MAX_CHUNK_SIZE := by
    have := pySlice_length_le text i (min (i + MAX_CHUNK_SIZE) text.length)
    omega
  have hb := chunkBoundary_lt (pySlice text i (min (i + MAX_CHUNK_SIZE) text.length))
    (min (i + MAX_CHUNK_SIZE) text.length)
  simp only [chunkStep]
  split
  · rename_i hin
    split
    · rename_i hbpos
      refine ⟨?_, ?_, Or.inr ?_⟩ <;>
        simp only [MAX_CHUNK_SIZE, OVERLAP_SIZE] at * <;> omega
    · rename_i hbneg
      refine ⟨?_, ?_, Or.inr ?_⟩ <;>
        simp only [MAX_CHUNK_SIZE, OVERLAP_SIZE] at * <;> omega
  · rename_i hfin
    refine ⟨?_, ?_, Or.inl ?_⟩ <;>
      simp only [MAX_CHUNK_SIZE, OVERLAP_SIZE] at * <;> omega

theorem chunkStep_lt (text : List Char) (i : Nat) (h : i < text.length) :
    i < (chunkStep text i).1 :=
  (chunkStep_spec text i h).2.1

theorem chunkLoop_of_ge (text : List Char) (i : Nat) (h : ¬ i < text.length) :
    ∀ fuel, chunkLoop fuel text i = [] := by
  intro fuel
  cases fuel <;> simp [chunkLoop, h]

theorem chunkLoop_congr (text : List Char) :
    ∀ (f1 f2 i : Nat), text.length - i ≤ f1 → text.length - i ≤ f2 →
      chunkLoop f1 text i = chunkLoop f2 text i := by
  intro f1
  induction f1 with
  | zero =>
      intro f2 i h1 h2
      have : ¬ i < text.length := by omega
      rw [chunkLoop_of_ge text i this, chunkLoop_of_ge text i this]
  | succ f ih =>
      intro f2 i h1 h2
      by_cases hin : i < text.length
      · obtain ⟨f2', rfl⟩ : ∃ f2', f2 = f2' + 1 := ⟨f2 - 1, by omega⟩
        have hstep := chunkStep_lt text i hin
        simp only [chunkLoop, if_pos hin]
        rw [ih f2' (chunkStep text i).1 (by omega) (by omega)]
      · rw [chunkLoop_of_ge text i hin, chunkLoop_of_ge text i hin]

/-- Propositional unfolding of `chunkRecords`, used in place of definitional
unfolding (the fuel argument changes between calls). -/
theorem chunkRecords_eq (text : List Char) (i : Nat) :
    chunkRecords text i =
      if i < text.length then
        (chunkStep text i).2 :: chunkRecords text (chunkStep text i).1
      else [] := by
  by_cases hin : i < text.length
  · obtain ⟨k, hk⟩ : ∃ k, text.length - i = k + 1 := ⟨text.length - i - 1, by omega⟩
    have hstep := chunkStep_lt text i hin
    rw [chunkRecords, hk]
    simp only [chunkLoop, if_pos hin, if_pos hin]
    rw [chunkRecords]
    congr 1
    exact chunkLoop_congr text k (text.length - (chunkStep text i).1)
      (chunkStep text i).1 (by omega) (by omega)
  · rw [chunkRecords, chunkLoop_of_ge text i hin, if_neg hin]

theorem chunkLoop_stop_le (text : List Char) :
    ∀ (fuel i : Nat) (w : Window), w ∈ chunkLoop fuel text i →
      w.stop ≤ w.start + MAX_CHUNK_SIZE := by
  intro fuel
  induction fuel with
  | zero => intro i w hw; simp [chunkLoop] at hw
  | succ f ih =>
      intro i w hw
      simp only [chunkLoop] at hw
      split at hw
      · rename_i hin
        rcases List.mem_cons.1 hw with rfl | hw
        · have := (chunkStep_spec text i hin).1
          rw [chunkStep_start] at *
          omega
        · exact ih _ w hw
      · simp at hw

theorem chunkLoop_chain (text : List Char) :
    ∀ (fuel i : Nat),
      (chunkLoop fuel text i).Chain' (fun w1 w2 => w1.stop ≤ w2.start + OVERLAP_SIZE) := by
  intro fuel
  induction fuel with
  | zero => intro i; simp [chunkLoop]
  | succ f ih =>
      intro i
      simp only [chunkLoop]
      split
      · rename_i hin
        rw [List.chain'_cons']
        refine ⟨?_, ih _⟩
        intro y hy
        by_cases hin2 : (chunkStep text i).1 < text.length
        · have hy2 : y = (chunkStep text (chunkStep text i).1).2 := by
            cases f with
            | zero => simp [chunkLoop] at hy
            | succ f' =>
                simp only [chunkLoop, if_pos hin2, List.head?_cons, Option.mem_def,
                  Option.some.injEq] at hy
                exact hy.symm
          have hstart : y.start = (chunkStep text i).1 := by
            rw [hy2, chunkStep_start]
          rcases (chunkStep_spec text i hin).2.2 with hend | hov
          · omega
          · omega
        · rw [chunkLoop_of_ge text _ hin2] at hy
          simp at hy
      · simp

theorem chunkLoop_length_le (text : List Char) :
    ∀ (fuel i : Nat), (chunkLoop fuel text i).length ≤ fuel := by
  intro fuel
  induction fuel with
  | zero => intro i; simp [chunkLoop]
  | succ f ih =>
      intro i
      simp only [chunkLoop]
      split
      · simpa [Nat.succ_le_succ_iff] using ih (chunkStep text i).1
      · simp

/-! ## Pointwise evaluation lemmas for `rfind`, used to run the chunking loop
symbolically on a concrete long input. -/

theorem pyRfindCharAux_of_forall_ne (c : Char) :
    ∀ (cs : List Char) (i : Nat) (acc : Int), (∀ x ∈ cs, x ≠ c) →
      pyRfindCharAux c cs i acc = acc := by
  intro cs
  induction cs with
  | nil => intro i acc _; rfl
  | cons x xs ih =>
      intro i acc h
      have hx : ¬ x = c := h x (List.mem_cons_self x xs)
      simp only [pyRfindCharAux, if_neg hx]
      exact ih (i + 1) acc (fun y hy => h y (List.mem_cons_of_mem x hy))

theorem pyRfindCharAux_append (c : Char) (l1 l2 : List Char) :
    ∀ (i : Nat) (acc : Int),
      pyRfindCharAux c (l1 ++ l2) i acc
        = pyRfindCharAux c l2 (i + l1.length) (pyRfindCharAux c l1 i acc) := by
  induction l1 with
  | nil => intro i acc; simp [pyRfindCharAux]
  | cons x xs ih =>
      intro i acc
      simp only [List.cons_append, pyRfindCharAux, List.length_cons, List.append_eq]
      rw [ih (i + 1)]
      congr 1
      omega

theorem pyRfindSubAux_of_forall_ne (p0 : Char) (pr : List Char) :
    ∀ (cs : List Char) (i : Nat) (acc : Int), (∀ x ∈ cs, x ≠ p0) →
      pyRfindSubAux (p0 :: pr) cs i acc = acc := by
  intro cs
  induction cs with
  | nil => intro i acc _; rfl
  | cons x xs ih =>
      intro i acc h
      have hx : ¬ x = p0 := h x (List.mem_cons_self x xs)
      have hpre : (p0 :: pr).isPrefixOf (x :: xs) = false := by
        simp [List.isPrefixOf]
        intro he
        exact absurd he.symm hx
      simp only [pyRfindSubAux, hpre, Bool.false_eq_true, if_false]
      exact ih (i + 1) acc (fun y hy => h y (List.mem_cons_of_mem x hy))

theorem pyRfindChar_of_forall_ne (cs : List Char) (c : Char) (h : ∀ x ∈ cs, x ≠ c) :
    pyRfindChar cs c = -1 :=
  pyRfindCharAux_of_forall_ne c cs 0 (-1) h

theorem pyRfindSub_of_forall_ne (cs : List Char) (p0 : Char) (pr : List Char)
    (h : ∀ x ∈ cs, x ≠ p0) : pyRfindSub cs (p0 :: pr) = -1 :=
  pyRfindSubAux_of_forall_ne p0 pr cs 0 (-1) h

/-! ## Claim C2: chunk sizes and overlap -/

/-- Claim C2: a text of at most 6000 characters is returned as the single
chunk equal to the input; for a longer text every produced chunk has at most
6000 characters, and each consecutive pair of windows of the loop overlaps by
at most 800 characters (`w1.stop ≤ w2.start + 800`, i.e. the part of window
`w1` reused by window `w2` is at most `OVERLAP_SIZE`). -/
theorem c2_chunk_size_and_overlap (text : List Char) :
    (text.length ≤ 6000 → chunkText text = [text])
    ∧ (6000 < text.length →
        (∀ c ∈ chunkText text, c.length ≤ 6000)
        ∧ (chunkRecords text 0).Chain' (fun w1 w2 => w1.stop ≤ w2.start + 800)) := by
  constructor
  · intro h
    have : ¬ MAX_CHUNK_SIZE < text.length := by
      simp only [MAX_CHUNK_SIZE]; omega
    simp [chunkText, this]
  · intro h
    have hM : MAX_CHUNK_SIZE < text.length := by
      simp only [MAX_CHUNK_SIZE]; omega
    constructor
    · intro c hc
      simp only [chunkText, if_pos hM, List.mem_filterMap] at hc
      obtain ⟨w, hw, hkeep⟩ := hc
      have hwidth : w.stop ≤ w.start + MAX_CHUNK_SIZE :=
        chunkLoop_stop_le text (text.length - 0) 0 w hw
      have hc2 : c = pyStrip (pySlice text w.start w.stop) := by
        simp only [keepChunk] at hkeep
        split at hkeep
        · exact absurd hkeep (by simp)
        · exact (Option.some.injEq _ _ ▸ hkeep).symm
      have h1 : c.length ≤ (pySlice text w.start w.stop).length := by
        rw [hc2]; exact pyStrip_length_le _
      have h2 := pySlice_length_le text w.start w.stop
      simp only [MAX_CHUNK_SIZE] at hwidth
      omega
    · have := chunkLoop_chain text (text.length - 0) 0
      simpa only [OVERLAP_SIZE, chunkRecords] using this

/-- Witness for C2 at concrete inputs: a short text is its own single chunk,
and a 6001-character text falls under the size/overlap bounds. -/
theorem c2_chunk_size_and_overlap_witness :
    chunkText ("hi".data) = ["hi".data]
    ∧ (∀ c ∈ chunkText (List.replicate 6001 'a'), c.length ≤ 6000) := by
  constructor
  · exact (c2_chunk_size_and_overlap ("hi".data)).1 (by decide)
  · exact ((c2_chunk_size_and_overlap (List.replicate 6001 'a')).2
      (by simp only [List.length_replicate]; decide)).1

/-! ## Claim C3: termination of the chunking loop -/

/-- Claim C3: the chunking loop terminates: whenever the loop index is still
inside the text, one iteration strictly increases it, and consequently the
loop produces at most `text.length - i` windows (finitely many chunks). -/
theorem c3_chunk_loop_terminates (text : List Char) (i : Nat) :
    (i < text.length → i < (chunkStep text i).1)
    ∧ (chunkRecords text i).length ≤ text.length - i := by
  exact ⟨chunkStep_lt text i, chunkLoop_length_le text (text.length - i) i⟩

/-- Witness for C3 at a concrete input. -/
theorem c3_chunk_loop_terminates_witness :
    (0 : Nat) < ("abc".data).length ∧ 0 < (chunkStep ("abc".data) 0).1 := by
  exact ⟨by decide, (c3_chunk_loop_terminates ("abc".data) 0).1 (by decide)⟩

/-! ## Claim C1: the boundary search of the chunking loop

The failing input below has a question mark at absolute position 11000, which
lies inside the final 1000 characters of the second window `[5200, 11200)`.
The claim (and the comment in the source) places the cut at the question
mark; the code compares the chunk-relative `rfind` result (5800) against the
absolute threshold `chunk_end - 1000` (10200), finds no boundary and cuts at
the raw 6000-character limit. -/

def c1Text : List Char :=
  List.replicate 11000 'a' ++ '?' :: List.replicate 1999 'a'

theorem c1Text_length : c1Text.length = 13000 := by
  simp only [c1Text, List.length_append, List.length_replicate, List.length_cons]

theorem c1_slice1 : pySlice c1Text 0 6000 = List.replicate 6000 'a' := by
  simp only [pySlice, List.drop_zero, Nat.sub_zero, c1Text]
  rw [List.take_append_of_le_length (by simp only [List.length_replicate]; omega),
    List.take_replicate, show (6000 ⊓ 11000 : Nat) = 6000 from by omega]

theorem c1_slice2 :
    pySlice c1Text 5200 11200
      = List.replicate 5800 'a' ++ '?' :: List.replicate 199 'a' := by
  simp only [pySlice, c1Text]
  rw [List.drop_append_of_le_length (by simp only [List.length_replicate]; omega),
    List.drop_replicate]
  rw [show (11200 - 5200 : Nat) = 6000 from rfl, show (11000 - 5200 : Nat) = 5800 from rfl]
  rw [List.take_append_eq_append_take, List.take_replicate, List.length_replicate]
  rw [show (6000 - 5800 : Nat) = 199 + 1 from rfl, List.take_succ_cons,
    List.take_replicate, show (6000 ⊓ 5800 : Nat) = 5800 from by omega,
    show (199 ⊓ 1999 : Nat) = 199 from by omega]

theorem replicate_a_ne (n : Nat) (c : Char) (hc : c ≠ 'a') :
    ∀ x ∈ List.replicate n 'a', x ≠ c := by
  intro x hx
  rw [(List.mem_replicate.1 hx).2]
  exact fun h => hc h.symm

theorem c1_chunk2_ne (c : Char) (hc : c ≠ 'a') (hq : c ≠ '?') :
    ∀ x ∈ List.replicate 5800 'a' ++ '?' :: List.replicate 199 'a', x ≠ c := by
  intro x hx
  rcases List.mem_append.1 hx with h | h
  · rw [(List.mem_replicate.1 h).2]; exact fun h2 => hc h2.symm
  · rcases List.mem_cons.1 h with rfl | h
    · exact fun h2 => hq h2.symm
    · rw [(List.mem_replicate.1 h).2]; exact fun h2 => hc h2.symm

theorem c1_boundary1 : chunkBoundary (List.replicate 6000 'a') 6000 = -1 := by
  have h1 := pyRfindChar_of_forall_ne (List.replicate 6000 'a') '?'
    (replicate_a_ne 6000 '?' (by decide))
  have h2 := pyRfindSub_of_forall_ne (List.replicate 6000 'a') '\n' ['\n']
    (replicate_a_ne 6000 '\n' (by decide))
  have h3 := pyRfindChar_of_forall_ne (List.replicate 6000 'a') '\n'
    (replicate_a_ne 6000 '\n' (by decide))
  have h4 := pyRfindChar_of_forall_ne (List.replicate 6000 'a') '.'
    (replicate_a_ne 6000 '.' (by decide))
  simp only [chunkBoundary, h1, h2, h3, h4]
  norm_num

theorem pyRfindCharAux_cons_self (c : Char) (xs : List Char) (i : Nat) (acc : Int) :
    pyRfindCharAux c (c :: xs) i acc = pyRfindCharAux c xs (i + 1) (i : Int) := by
  simp [pyRfindCharAux]

theorem c1_rfind_qm2 :
    pyRfindChar (List.replicate 5800 'a' ++ '?' :: List.replicate 199 'a') '?'
      = 5800 := by
  unfold pyRfindChar
  rw [pyRfindCharAux_append]
  rw [pyRfindCharAux_of_forall_ne '?' (List.replicate 5800 'a') 0 (-1)
    (replicate_a_ne 5800 '?' (by decide))]
  rw [List.length_replicate]
  show pyRfindCharAux '?' ('?' :: List.replicate 199 'a') 5800 (-1) = 5800
  rw [pyRfindCharAux_cons_self]
  rw [pyRfindCharAux_of_forall_ne '?' (List.replicate 199 'a') (5800 + 1) _
    (replicate_a_ne 199 '?' (by decide))]
  norm_num

theorem c1_boundary2 :
    chunkBoundary (List.replicate 5800 'a' ++ '?' :: List.replicate 199 'a') 11200
      = -1 := by
  have h1 := c1_rfind_qm2
  have h2 := pyRfindSub_of_forall_ne
    (List.replicate 5800 'a' ++ '?' :: List.replicate 199 'a') '\n' ['\n']
    (c1_chunk2_ne '\n' (by decide) (by decide))
  have h3 := pyRfindChar_of_forall_ne
    (List.replicate 5800 'a' ++ '?' :: List.replicate 199 'a') '\n'
    (c1_chunk2_ne '\n' (by decide) (by decide))
  have h4 := pyRfindChar_of_forall_ne
    (List.replicate 5800 'a' ++ '?' :: List.replicate 199 'a') '.'
    (c1_chunk2_ne '.' (by decide) (by decide))
  simp only [chunkBoundary, h1, h2, h3, h4]
  norm_num

theorem c1_step0 : chunkStep c1Text 0 = (5200, ⟨0, 6000⟩) := by
  have hmin : min (0 + MAX_CHUNK_SIZE) c1Text.length = 6000 := by
    rw [c1Text_length]; simp only [MAX_CHUNK_SIZE]; omega
  simp only [chunkStep]
  rw [hmin, c1Text_length, if_pos (by omega : (6000 : Nat) < 13000)]
  rw [c1_slice1, c1_boundary1]
  norm_num [OVERLAP_SIZE]

theorem c1_step1 : chunkStep c1Text 5200 = (10400, ⟨5200, 11200⟩) := by
  have hmin : min (5200 + MAX_CHUNK_SIZE) c1Text.length = 11200 := by
    rw [c1Text_length]; simp only [MAX_CHUNK_SIZE]; omega
  simp only [chunkStep]
  rw [hmin, c1Text_length, if_pos (by omega : (11200 : Nat) < 13000)]
  rw [c1_slice2, c1_boundary2]
  norm_num [OVERLAP_SIZE]

theorem c1_step2 : chunkStep c1Text 10400 = (13000, ⟨10400, 13000⟩) := by
  have hmin : min (10400 + MAX_CHUNK_SIZE) c1Text.length = 13000 := by
    rw [c1Text_length]; simp only [MAX_CHUNK_SIZE]; omega
  simp only [chunkStep]
  rw [hmin, c1Text_length, if_neg (by omega : ¬ ((13000 : Nat) < 13000))]

theorem c1_records :
    chunkRecords c1Text 0 = [⟨0, 6000⟩, ⟨5200, 11200⟩, ⟨10400, 13000⟩] := by
  have h2 : chunkRecords c1Text 10400 = [⟨10400, 13000⟩] := by
    rw [chunkRecords_eq, if_pos (by rw [c1Text_length]; omega), c1_step2]
    dsimp only
    rw [chunkRecords_eq, if_neg (by rw [c1Text_length]; omega)]
  have h1 : chunkRecords c1Text 5200 = [⟨5200, 11200⟩, ⟨10400, 13000⟩] := by
    rw [chunkRecords_eq, if_pos (by rw [c1Text_length]; omega), c1_step1]
    dsimp only
    rw [h2]
  rw [chunkRecords_eq, if_pos (by rw [c1Text_length]; omega), c1_step0]
  dsimp only
  rw [h1]

/-- Claim C1 (code bug): on the failing input `c1Text` (11000 copies of
`a`, one question mark, 1999 more copies of `a`) the second window of the
chunking loop is `[5200, 11200)` and is not the final window; the last
question mark of the text sits at position 11000, inside the final 1000
characters of that window, yet the window is cut at the raw 6000-character
limit (stop = 11200), not at the question mark. The claim (and the comment
`Within 1000 chars of end` in the source) requires the cut at position
11001; the code compares the chunk-relative `rfind` result against the
absolute position `chunk_end - 1000`, so the boundary search can never
succeed once the window start exceeds 1000. -/
theorem c1_boundary_position_bug :
    chunkRecords c1Text 0 = [⟨0, 6000⟩, ⟨5200, 11200⟩, ⟨10400, 13000⟩]
    ∧ c1Text[11000]? = some '?'
    ∧ 11200 - 1000 ≤ 11000 ∧ 11000 < 11200 := by
  refine ⟨c1_records, ?_, by omega, by omega⟩
  unfold c1Text
  rw [List.getElem?_append_right (by simp only [List.length_replicate]; omega)]
  simp only [List.length_replicate]
  rw [show (11000 - 11000 : Nat) = 0 from rfl]
  rw [List.getElem?_cons_zero]

/-! ## Per-record normalization and filtering of `generate_questions_with_groq`
(`routes/exam_prep.py`, lines 358-413).

A raw LLM record is a JSON object; the source reads each field with
`q.get(key, q.get(AlternateKey, default))`, so the record is modelled with
one optional field per accepted key (string-valued fields as `List Char`,
`confidence` as a rational standing in for the JSON number). -/

structure RawQA where
  question : Option (List Char)
  Question : Option (List Char)
  answer : Option (List Char)
  Answer : Option (List Char)
  solution : Option (List Char)
  importance : Option (List Char)
  Importance : Option (List Char)
  topic : Option (List Char)
  Topic : Option (List Char)
  difficulty : Option (List Char)
  Difficulty : Option (List Char)
  confidence : Option ℚ
  Confidence : Option ℚ

structure NormQA where
  question : List Char
  answer : List Char
  importance : List Char
  topic : List Char
  difficulty : List Char
  confidence : ℚ
deriving DecidableEq

/-- The fixed placeholder of line 363. -/
def ANSWER_PLACEHOLDER : List Char :=
  ("Answer will be generated based on document content.".data)

/-- Lines 359-404: per-record normalization (key fallbacks, strip, answer
placeholder, lower-casing, defaults). -/
def normalizeQA (q : RawQA) : NormQA :=
  let question_text := pyStrip (q.question.getD (q.Question.getD []))
  let answer0 := pyStrip (q.answer.getD (q.Answer.getD (q.solution.getD [])))
  let answer_text :=
    if answer0.isEmpty
        || isSubstrOf ("not provided".data) (pyLower answer0)
        || isSubstrOf ("answer not".data) (pyLower answer0) then
      ANSWER_PLACEHOLDER
    else answer0
  { question := question_text
    answer := answer_text
    importance := pyLower (q.importance.getD (q.Importance.getD ("medium".data)))
    topic := q.topic.getD (q.Topic.getD ("General".data))
    difficulty := pyLower (q.difficulty.getD (q.Difficulty.getD ("medium".data)))
    confidence := q.confidence.getD (q.Confidence.getD (0.8 : ℚ)) }

/-- Lines 406-413: a normalized record is appended only when its question is
truthy and longer than 10 characters. -/
def keepQA (n : NormQA) : Bool :=
  !n.question.isEmpty && decide (10 < n.question.length)

/-- The records a single chunk contributes to `all_questions`. -/
def processChunkRecords (qs : List RawQA) : List NormQA :=
  (qs.map normalizeQA).filter keepQA

/-! ## Claim C4: normalization defaults -/

/-- Claim C4: a record missing `importance`/`topic`/`difficulty`/`confidence`
(under both accepted key spellings) receives the defaults `"medium"`,
`"General"`, `"medium"`, `0.8`; `importance` and `difficulty` are
lower-cased; and a record whose answer is blank after stripping, or contains
"not provided" in any letter case, gets the fixed placeholder answer. -/
theorem c4_normalization_defaults :
    (∀ q : RawQA, q.importance = none → q.Importance = none →
        (normalizeQA q).importance = ("medium".data))
    ∧ (∀ q : RawQA, q.topic = none → q.Topic = none →
        (normalizeQA q).topic = ("General".data))
    ∧ (∀ q : RawQA, q.difficulty = none → q.Difficulty = none →
        (normalizeQA q).difficulty = ("medium".data))
    ∧ (∀ q : RawQA, q.confidence = none → q.Confidence = none →
        (normalizeQA q).confidence = (0.8 : ℚ))
    ∧ (∀ (q : RawQA) (s : List Char), q.importance = some s →
        (normalizeQA q).importance = pyLower s)
    ∧ (∀ (q : RawQA) (s : List Char), q.difficulty = some s →
        (normalizeQA q).difficulty = pyLower s)
    ∧ (∀ q : RawQA,
        pyStrip (q.answer.getD (q.Answer.getD (q.solution.getD []))) = []
          ∨ isSubstrOf ("not provided".data)
              (pyLower (pyStrip (q.answer.getD (q.Answer.getD (q.solution.getD [])))))
              = true →
        (normalizeQA q).answer = ANSWER_PLACEHOLDER) := by
  refine ⟨?_, ?_, ?_, ?_, ?_, ?_, ?_⟩
  · intro q h1 h2
    simp only [normalizeQA, h1, h2, Option.getD_none]
    decide
  · intro q h1 h2
    simp only [normalizeQA, h1, h2, Option.getD_none]
  · intro q h1 h2
    simp only [normalizeQA, h1, h2, Option.getD_none]
    decide
  · intro q h1 h2
    simp only [normalizeQA, h1, h2, Option.getD_none]
  · intro q s h1
    simp only [normalizeQA, h1, Option.getD_some]
  · intro q s h1
    simp only [normalizeQA, h1, Option.getD_some]
  · intro q h
    rcases h with h | h
    · have hempty :
          (pyStrip (q.answer.getD (q.Answer.getD (q.solution.getD [])))).isEmpty
            = true := by
        rw [h]; rfl
      simp only [normalizeQA, hempty, Bool.true_or, if_pos]
    · simp only [normalizeQA, h, Bool.or_true, Bool.true_or, if_pos]

/-- Witness for C4: a record with every field absent receives all four
defaults, and a record whose answer reads " Not Provided " is replaced with
the placeholder. -/
theorem c4_normalization_defaults_witness :
    (normalizeQA ⟨none, none, none, none, none, none, none, none, none, none,
        none, none, none⟩).importance = ("medium".data)
    ∧ (normalizeQA ⟨none, none, none, none, none, none, none, none, none, none,
        none, none, none⟩).topic = ("General".data)
    ∧ (normalizeQA ⟨none, none, none, none, none, none, none, none, none, none,
        none, none, none⟩).difficulty = ("medium".data)
    ∧ (normalizeQA ⟨none, none, none, none, none, none, none, none, none, none,
        none, none, none⟩).confidence = (0.8 : ℚ)
    ∧ (normalizeQA ⟨none, none, some (" Not Provided ".data), none, none, none,
        none, none, none, none, none, none, none⟩).answer = ANSWER_PLACEHOLDER := by
  refine ⟨c4_normalization_defaults.1 _ rfl rfl,
    c4_normalization_defaults.2.1 _ rfl rfl,
    c4_normalization_defaults.2.2.1 _ rfl rfl,
    c4_normalization_defaults.2.2.2.1 _ rfl rfl,
    c4_normalization_defaults.2.2.2.2.2.2 _ (Or.inr (by decide))⟩

/-! ## Claim C5: the question-length filter -/

theorem keepQA_iff (n : NormQA) :
    keepQA n = decide (10 < n.question.length) := by
  simp only [keepQA]
  cases hn : n.question with
  | nil => simp [hn]
  | cons x xs => simp [hn]

/-- Claim C5: a normalized record is kept exactly when its question is
strictly longer than 10 characters (the separate truthiness test in the
source is subsumed: a string longer than 10 characters is non-empty). -/
theorem c5_question_length_filter (qs : List RawQA) :
    processChunkRecords qs
      = (qs.map normalizeQA).filter (fun n => decide (10 < n.question.length)) := by
  unfold processChunkRecords
  exact List.filter_congr (fun n _ => keepQA_iff n)

/-! ## `extract_text_from_file` (`routes/exam_prep.py`, lines 27-159)

The extraction libraries (PyMuPDF, mammoth) and the filesystem are
abstracted as oracles; the embedded function keeps the dispatch and error
logic of the source. -/

inductive ExtractError where
  | notFound (msg : List Char)
  | unsupported (msg : List Char)
deriving DecidableEq

/-- `os.path.splitext(filename)[1]`: the suffix starting at the last dot of
the name, empty when there is no dot or only leading dots precede it. -/
def splitext_ext (cs : List Char) : List Char :=
  let j := pyRfindChar cs '.'
  if (cs.take j.toNat).any (fun c => !(c = '.')) then cs.drop j.toNat else []

/-- Lines 27-159 of `extract_text_from_file`: missing path fails first, then
dispatch on the lower-cased extension, unknown extensions fail. -/
def extract_text_from_file
    (pathExists : List Char → Bool)
    (pdfExtract docxExtract txtRead : List Char → List Char)
    (file_path filename : List Char) : Except ExtractError (List Char) :=
  let ext := pyLower (splitext_ext filename)
  if !(pathExists file_path) then
    Except.error (ExtractError.notFound (("File not found: ".data) ++ file_path))
  else if ext = (".pdf".data) then Except.ok (pdfExtract file_path)
  else if ext = (".docx".data) ∨ ext = (".doc".data) then
    Except.ok (docxExtract file_path)
  else if ext = (".txt".data) then Except.ok (txtRead file_path)
  else Except.error (ExtractError.unsupported (("Unsupported file type: ".data) ++ ext))

/-- Claim C6: a missing path raises the not-found error, and an existing path
with an extension other than `.pdf`/`.docx`/`.doc`/`.txt` raises the
unsupported-type error (never a silent empty result). -/
theorem c6_extract_errors
    (pathExists : List Char → Bool)
    (pdfExtract docxExtract txtRead : List Char → List Char)
    (file_path filename : List Char) :
    (pathExists file_path = false →
      extract_text_from_file pathExists pdfExtract docxExtract txtRead
          file_path filename
        = Except.error (ExtractError.notFound (("File not found: ".data) ++ file_path)))
    ∧ (pathExists file_path = true →
      pyLower (splitext_ext filename)
          ∉ [(".pdf".data), (".docx".data), (".doc".data), (".txt".data)] →
      extract_text_from_file pathExists pdfExtract docxExtract txtRead
          file_path filename
        = Except.error (ExtractError.unsupported
            (("Unsupported file type: ".data) ++ pyLower (splitext_ext filename)))) := by
  constructor
  · intro h
    simp [extract_text_from_file, h]
  · intro h hext
    simp only [List.mem_cons, List.mem_singleton, not_or] at hext
    obtain ⟨h1, h2, h3, h4⟩ := hext
    simp [extract_text_from_file, h, h1, h2, h3, h4]

/-- Witness for C6: a missing path, and an existing path with a `.xyz`
extension. -/
theorem c6_extract_errors_witness :
    extract_text_from_file (fun _ => false) id id id ("/tmp/a.pdf".data) ("a.pdf".data)
      = Except.error (ExtractError.notFound (("File not found: ".data) ++ ("/tmp/a.pdf".data)))
    ∧ extract_text_from_file (fun _ => true) id id id ("/tmp/a.xyz".data) ("a.xyz".data)
      = Except.error (ExtractError.unsupported
          (("Unsupported file type: ".data) ++ pyLower (splitext_ext ("a.xyz".data)))) := by
  exact ⟨(c6_extract_errors (fun _ => false) id id id ("/tmp/a.pdf".data)
      ("a.pdf".data)).1 rfl,
    (c6_extract_errors (fun _ => true) id id id ("/tmp/a.xyz".data)
      ("a.xyz".data)).2 rfl (by decide)⟩

/-! ## Claim C7: the short-text gate of `generate_questions`
(`routes/exam_prep.py`, lines 519-527). -/

/-- Lines 519-527: `true` when the extracted text is sent on to question
generation, `false` when the handler raises the could-not-extract error.
A text of stripped length below 50 only logs a warning and (per the comment
`Trying to continue anyway...`) proceeds unless the stripped length is also
below 10. -/
def sufficientTextGate (extracted : List Char) : Bool :=
  if extracted.isEmpty || decide ((pyStrip extracted).length < 50) then
    if extracted.isEmpty || decide ((pyStrip extracted).length < 10) then false
    else true
  else true

/-- Counterexample to claim C7: a 20-character extraction (stripped length
20, below the 50-character heuristic) is nevertheless sent on to question
generation. -/
theorem c7_counterexample :
    (pyStrip ("abcdefghijklmnopqrst".data)).length < 50
    ∧ sufficientTextGate ("abcdefghijklmnopqrst".data) = true := by
  constructor
  · decide
  · decide

/-- Claim C7 as amended: the caller treats a paper as an extraction failure
exactly when the stripped extracted text is shorter than 10 characters;
texts of stripped length 10-49 produce a warning but are still sent to
question generation. -/
theorem c7_gate_threshold (extracted : List Char) :
    sufficientTextGate extracted = true ↔ 10 ≤ (pyStrip extracted).length := by
  have hemp0 : extracted.isEmpty = true → (pyStrip extracted).length = 0 := by
    intro h; rw [List.isEmpty_iff.1 h]; rfl
  constructor
  · intro hg
    by_contra hlt
    have h10 : (pyStrip extracted).length < 10 := by omega
    have h50 : (pyStrip extracted).length < 50 := by omega
    have hfalse : sufficientTextGate extracted = false := by
      simp [sufficientTextGate, h10, h50]
    rw [hfalse] at hg
    exact Bool.false_ne_true hg
  · intro hge
    have h10 : ¬ (pyStrip extracted).length < 10 := by omega
    have hne : extracted.isEmpty = false := by
      cases hx : extracted.isEmpty
      · rfl
      · exact absurd (hemp0 hx) (by omega)
    by_cases h50 : (pyStrip extracted).length < 50
    · simp [sufficientTextGate, hne, h10, h50]
    · simp [sufficientTextGate, hne, h50]

/-! ## Response parsing of `generate_questions_with_groq`
(`routes/exam_prep.py`, lines 316-351). -/

/-- The backquote character of a Markdown code fence. -/
def backquoteChar : Char := Char.ofNat 96

/-- The closing curly brace. -/
def rightBraceChar : Char := Char.ofNat 125

def fenceMark : List Char := [backquoteChar, backquoteChar, backquoteChar]

def fenceJson : List Char := fenceMark ++ ("json".data)

/-- Lines 317-321: strip the response, and when it starts with a code fence
remove every fence marker and strip again. -/
def strip_fences (s : List Char) : List Char :=
  let t := pyStrip s
  if fenceMark.isPrefixOf t then
    pyStrip (pyReplace (pyReplace t fenceJson []) fenceMark [])
  else t

/-- Lines 323-341: recover a JSON-array substring. Take the substring from
the first opening bracket to the last closing bracket; when no closing
bracket exists, fall back to the last complete closing brace and synthesize
a closing bracket; fail when that is impossible too. When no opening bracket
exists the string is passed through unchanged (to the JSON decoder). -/
def recover_json (s : List Char) : Except (List Char) (List Char) :=
  let t := strip_fences s
  let fi := pyFindChar t '['
  if 0 ≤ fi then
    let ri := pyRfindChar t ']'
    if 0 ≤ ri then
      Except.ok (pySlice t fi.toNat (ri.toNat + 1))
    else
      let lb := pyRfindChar t rightBraceChar
      if fi < lb then
        Except.ok (pySlice t fi.toNat (lb.toNat + 1) ++ [']'])
      else
        Except.error ("JSON response is too incomplete to parse".data)
  else Except.ok t

/-- `i` is the position of the first occurrence of `c` in `t`. -/
def firstIdxOf (c : Char) (t : List Char) (i : Nat) : Prop :=
  t[i]? = some c ∧ ∀ k, k < i → t[k]? ≠ some c

/-- `j` is the position of the last occurrence of `c` in `t`. -/
def lastIdxOf (c : Char) (t : List Char) (j : Nat) : Prop :=
  t[j]? = some c ∧ ∀ k, k < t.length → j < k → t[k]? ≠ some c

/-- `c` does not occur in `t`. -/
def noIdxOf (c : Char) (t : List Char) : Prop :=
  ∀ k, k < t.length → t[k]? ≠ some c

instance (c : Char) (t : List Char) (i : Nat) : Decidable (firstIdxOf c t i) := by
  unfold firstIdxOf; infer_instance

instance (c : Char) (t : List Char) (j : Nat) : Decidable (lastIdxOf c t j) := by
  unfold lastIdxOf; infer_instance

instance (c : Char) (t : List Char) : Decidable (noIdxOf c t) := by
  unfold noIdxOf; infer_instance

theorem pyFindCharAux_spec (c : Char) :
    ∀ (cs : List Char) (i : Nat),
      (pyFindCharAux c cs i = -1 ∧ ∀ k : Nat, cs[k]? ≠ some c)
      ∨ (∃ k, cs[k]? = some c ∧ pyFindCharAux c cs i = ((i + k : Nat) : Int)
          ∧ ∀ m, m < k → cs[m]? ≠ some c) := by
  intro cs
  induction cs with
  | nil =>
      intro i
      exact Or.inl ⟨rfl, by simp⟩
  | cons x xs ih =>
      intro i
      by_cases hx : x = c
      · refine Or.inr ⟨0, by simp [hx], ?_, ?_⟩
        · simp [pyFindCharAux, hx]
        · intro m hm; exact absurd hm (Nat.not_lt_zero m)
      · rcases ih (i + 1) with ⟨h1, h2⟩ | ⟨k, hk1, hk2, hk3⟩
        · refine Or.inl ⟨by simp [pyFindCharAux, hx, h1], ?_⟩
          intro k
          cases k with
          | zero => simp [hx]
          | succ k' => simp only [List.getElem?_cons_succ]; exact h2 k'
        · refine Or.inr ⟨k + 1, by simpa using hk1, ?_, ?_⟩
          · simp only [pyFindCharAux, if_neg hx, hk2]
            congr 1
            omega
          · intro m hm
            cases m with
            | zero => simp [hx]
            | succ m' =>
                simp only [List.getElem?_cons_succ]
                exact hk3 m' (by omega)

theorem pyRfindCharAux_spec (c : Char) :
    ∀ (cs : List Char) (i : Nat) (acc : Int),
      (pyRfindCharAux c cs i acc = acc ∧ ∀ k : Nat, cs[k]? ≠ some c)
      ∨ (∃ k, cs[k]? = some c ∧ pyRfindCharAux c cs i acc = ((i + k : Nat) : Int)
          ∧ ∀ m, k < m → cs[m]? ≠ some c) := by
  intro cs
  induction cs with
  | nil =>
      intro i acc
      exact Or.inl ⟨rfl, by simp⟩
  | cons x xs ih =>
      intro i acc
      have hstep : pyRfindCharAux c (x :: xs) i acc
          = pyRfindCharAux c xs (i + 1) (if x = c then (i : Int) else acc) := rfl
      rcases ih (i + 1) (if x = c then (i : Int) else acc) with ⟨h1, h2⟩ | ⟨k, hk1, hk2, hk3⟩
      · by_cases hx : x = c
        · refine Or.inr ⟨0, by simp [hx], ?_, ?_⟩
          · rw [hstep, h1, if_pos hx]
            norm_num
          · intro m hm
            cases m with
            | zero => exact absurd hm (by omega)
            | succ m' => simp only [List.getElem?_cons_succ]; exact h2 m'
        · refine Or.inl ⟨by rw [hstep, h1, if_neg hx], ?_⟩
          intro k
          cases k with
          | zero => simp [hx]
          | succ k' => simp only [List.getElem?_cons_succ]; exact h2 k'
      · refine Or.inr ⟨k + 1, by simpa using hk1, ?_, ?_⟩
        · rw [hstep, hk2]
          congr 1
          omega
        · intro m hm
          cases m with
          | zero => exact absurd hm (by omega)
          | succ m' =>
              simp only [List.getElem?_cons_succ]
              exact hk3 m' (by omega)

theorem getElem?_lt_length {t : List Char} {k : Nat} {c : Char}
    (h : t[k]? = some c) : k < t.length := by
  by_contra hk
  rw [List.getElem?_eq_none (by omega)] at h
  exact Option.noConfusion h

theorem pyFindChar_of_firstIdxOf {c : Char} {t : List Char} {i : Nat}
    (h : firstIdxOf c t i) : pyFindChar t c = (i : Int) := by
  obtain ⟨h1, h2⟩ := h
  rcases pyFindCharAux_spec c t 0 with ⟨_, hb⟩ | ⟨k, hk1, hk2, hk3⟩
  · exact absurd h1 (hb i)
  · have hki : k = i := by
      rcases lt_trichotomy k i with hlt | heq | hgt
      · exact absurd hk1 (h2 k hlt)
      · exact heq
      · exact absurd h1 (hk3 i hgt)
    subst hki
    simpa [pyFindChar] using hk2

theorem pyFindChar_cases (t : List Char) (c : Char) :
    (pyFindChar t c = -1 ∧ noIdxOf c t)
    ∨ (0 ≤ pyFindChar t c ∧ firstIdxOf c t (pyFindChar t c).toNat) := by
  rcases pyFindCharAux_spec c t 0 with ⟨h1, h2⟩ | ⟨k, hk1, hk2, hk3⟩
  · exact Or.inl ⟨h1, fun k _ => h2 k⟩
  · have heq : pyFindChar t c = (k : Int) := by simpa [pyFindChar] using hk2
    refine Or.inr ⟨by omega, ?_⟩
    rw [heq]
    exact ⟨by simpa using hk1, by simpa using hk3⟩

theorem pyRfindChar_of_lastIdxOf {c : Char} {t : List Char} {j : Nat}
    (h : lastIdxOf c t j) : pyRfindChar t c = (j : Int) := by
  obtain ⟨h1, h2⟩ := h
  rcases pyRfindCharAux_spec c t 0 (-1) with ⟨_, hb⟩ | ⟨k, hk1, hk2, hk3⟩
  · exact absurd h1 (hb j)
  · have hkj : k = j := by
      rcases lt_trichotomy k j with hlt | heq | hgt
      · exact absurd h1 (hk3 j hlt)
      · exact heq
      · exact absurd hk1 (h2 k (getElem?_lt_length hk1) hgt)
    subst hkj
    simpa [pyRfindChar] using hk2

theorem pyRfindChar_cases (t : List Char) (c : Char) :
    (pyRfindChar t c = -1 ∧ noIdxOf c t)
    ∨ (0 ≤ pyRfindChar t c ∧ lastIdxOf c t (pyRfindChar t c).toNat) := by
  rcases pyRfindCharAux_spec c t 0 (-1) with ⟨h1, h2⟩ | ⟨k, hk1, hk2, hk3⟩
  · exact Or.inl ⟨h1, fun k _ => h2 k⟩
  · have heq : pyRfindChar t c = (k : Int) := by simpa [pyRfindChar] using hk2
    refine Or.inr ⟨by omega, ?_⟩
    rw [heq]
    refine ⟨by simpa using hk1, ?_⟩
    intro m _ hm
    exact hk3 m (by simpa using hm)

theorem pyRfindChar_of_noIdxOf {c : Char} {t : List Char} (h : noIdxOf c t) :
    pyRfindChar t c = -1 := by
  rcases pyRfindChar_cases t c with ⟨h1, _⟩ | ⟨_, hlast⟩
  · exact h1
  · exact absurd hlast.1 (h _ (getElem?_lt_length hlast.1))

/-- Claim C8: the parsing of an LLM response. After fence stripping, when the
string has both an opening and a closing bracket the recovered JSON text is
the substring from the first `[` to the last `]`; when it has an opening but
no closing bracket and some `}` after the first `[`, the recovered text runs
to that last brace with a synthesized `]` appended; and the parse error is
raised exactly when an opening bracket is present but neither a closing
bracket nor any brace after the opening bracket exists. -/
theorem c8_response_parsing (s : List Char) :
    (fenceMark.isPrefixOf (pyStrip s) = false → strip_fences s = pyStrip s)
    ∧ (∀ i j, firstIdxOf '[' (strip_fences s) i → lastIdxOf ']' (strip_fences s) j →
        recover_json s = Except.ok (pySlice (strip_fences s) i (j + 1)))
    ∧ (∀ i j, firstIdxOf '[' (strip_fences s) i → noIdxOf ']' (strip_fences s) →
        lastIdxOf rightBraceChar (strip_fences s) j → i < j →
        recover_json s = Except.ok (pySlice (strip_fences s) i (j + 1) ++ [']']))
    ∧ ((∃ m, recover_json s = Except.error m) ↔
        (∃ i, firstIdxOf '[' (strip_fences s) i
          ∧ noIdxOf ']' (strip_fences s)
          ∧ ∀ k, k < (strip_fences s).length → i < k →
              (strip_fences s)[k]? ≠ some rightBraceChar)) := by
  refine ⟨?_, ?_, ?_, ?_⟩
  · intro h
    simp [strip_fences, h]
  · intro i j hf hl
    have hfi := pyFindChar_of_firstIdxOf hf
    have hri := pyRfindChar_of_lastIdxOf hl
    simp only [recover_json, hfi, hri]
    rw [if_pos (by omega), if_pos (by omega)]
    simp
  · intro i j hf hno hl hij
    have hfi := pyFindChar_of_firstIdxOf hf
    have hri := pyRfindChar_of_noIdxOf hno
    have hlb := pyRfindChar_of_lastIdxOf hl
    simp only [recover_json, hfi, hri, hlb]
    rw [if_pos (by omega), if_neg (by omega), if_pos (by exact_mod_cast hij)]
    simp
  · constructor
    · rintro ⟨m, hm⟩
      simp only [recover_json] at hm
      split_ifs at hm with h1 h2 h3
      · rcases pyFindChar_cases (strip_fences s) '[' with ⟨hneg, _⟩ | ⟨_, hfirst⟩
        · omega
        · refine ⟨(pyFindChar (strip_fences s) '[').toNat, hfirst, ?_, ?_⟩
          · rcases pyRfindChar_cases (strip_fences s) ']' with ⟨_, hno⟩ | ⟨hpos, _⟩
            · exact hno
            · omega
          · intro k hk hik hbrace
            rcases pyRfindChar_cases (strip_fences s) rightBraceChar
              with ⟨_, hno⟩ | ⟨hpos, hlast⟩
            · exact hno k hk hbrace
            · have hkle : k ≤ (pyRfindChar (strip_fences s) rightBraceChar).toNat := by
                by_contra hklt
                exact hlast.2 k hk (by omega) hbrace
              omega
    · rintro ⟨i, hf, hno, hnb⟩
      have hfi := pyFindChar_of_firstIdxOf hf
      have hri := pyRfindChar_of_noIdxOf hno
      refine ⟨("JSON response is too incomplete to parse".data), ?_⟩
      simp only [recover_json, hfi, hri]
      rw [if_pos (by omega), if_neg (by omega), if_neg ?_]
      rcases pyRfindChar_cases (strip_fences s) rightBraceChar
        with ⟨hneg, _⟩ | ⟨hpos, hlast⟩
      · omega
      · have hble : (pyRfindChar (strip_fences s) rightBraceChar).toNat ≤ i := by
          by_contra hgt
          exact hnb _ (getElem?_lt_length hlast.1) (by omega) hlast.1
        omega

/-- Witness for C8 at concrete responses: a bracketed response is cut to the
bracketed substring, a brace-truncated response is repaired with a
synthesized bracket, and a response with an opening bracket but nothing to
close it fails. -/
theorem c8_response_parsing_witness :
    recover_json ("ab[cd]e".data) = Except.ok ("[cd]".data)
    ∧ recover_json (("x[y".data) ++ [rightBraceChar])
        = Except.ok (("[y".data ++ [rightBraceChar]) ++ [']'])
    ∧ (∃ m, recover_json ("[abc".data) = Except.error m) := by
  refine ⟨?_, ?_, ?_⟩
  · have h := (c8_response_parsing ("ab[cd]e".data)).2.1 2 5 (by decide) (by decide)
    rw [h]
    exact congrArg Except.ok (by decide)
  · have h := (c8_response_parsing (("x[y".data) ++ [rightBraceChar])).2.2.1 1 3
      (by decide) (by decide) (by decide) (by decide)
    rw [h]
    exact congrArg Except.ok (by decide)
  · exact (c8_response_parsing ("[abc".data)).2.2.2.mpr ⟨0, by decide, by decide, by decide⟩

/-! ## `create_or_update_user` (`database.py`, lines 64-99)

The `users` table is modelled as a list of rows in insertion order; the
`UNIQUE` constraints of the schema (`id` primary key, `clerk_id`, `email`)
make the corresponding statements fail, which is modelled with `Except`. -/

structure UserRow where
  id : String
  clerk_id : String
  email : String
  first_name : Option String
  last_name : Option String
  full_name : Option String
  image_url : Option String
deriving DecidableEq

/-- Lines 64-99: look the user up by `clerk_id`; update the row in place when
found, otherwise insert a new row whose primary `id` is the `clerk_id`;
finally read the row back by `id` and return it with the new table state. -/
def create_or_update_user (db : List UserRow) (clerk_id email : String)
    (first_name last_name full_name image_url : Option String) :
    Except String (UserRow × List UserRow) :=
  match db.find? (fun r => r.clerk_id == clerk_id) with
  | some existing =>
      if db.any (fun r => r.clerk_id != clerk_id && r.email == email) then
        Except.error "UNIQUE constraint failed: users.email"
      else
        let updated := db.map (fun r =>
          if r.clerk_id == clerk_id then
            { r with email := email, first_name := first_name,
                     last_name := last_name, full_name := full_name,
                     image_url := image_url }
          else r)
        match updated.find? (fun r => r.id == existing.id) with
        | some u => Except.ok (u, updated)
        | none => Except.error "user row not found after update"
  | none =>
      if db.any (fun r => r.id == clerk_id || r.clerk_id == clerk_id
          || r.email == email) then
        Except.error "UNIQUE constraint failed: users"
      else
        let row : UserRow :=
          ⟨clerk_id, clerk_id, email, first_name, last_name, full_name, image_url⟩
        match (db ++ [row]).find? (fun r => r.id == clerk_id) with
        | some u => Except.ok (u, db ++ [row])
        | none => Except.error "user row not found after insert"

theorem find?_append_singleton {α : Type} (p : α → Bool) (l : List α) (a : α)
    (hl : ∀ x ∈ l, p x = false) (ha : p a = true) :
    (l ++ [a]).find? p = some a := by
  induction l with
  | nil => simp [List.find?, ha]
  | cons x xs ih =>
      have hx : p x = false := hl x (List.mem_cons_self x xs)
      rw [List.cons_append, List.find?_cons_of_neg _ (by simp [hx])]
      exact ih (fun y hy => hl y (List.mem_cons_of_mem x hy))

theorem map_id_of_mem {α : Type} (f : α → α) (l : List α) (h : ∀ x ∈ l, f x = x) :
    l.map f = l := by
  induction l with
  | nil => rfl
  | cons x xs ih =>
      rw [List.map_cons, h x (List.mem_cons_self x xs),
        ih (fun y hy => h y (List.mem_cons_of_mem x hy))]

/-- Claim C9: starting from any table state with no row for `cid` (and no
uniqueness conflict on the two emails), syncing `cid` and then syncing it
again with a different email succeeds, leaves exactly one `users` row for
that `clerk_id`, updates the email in place, and keeps the primary `id` of
the second call equal to the one assigned by the first call. -/
theorem c9_upsert_stable_id
    (db : List UserRow) (cid e1 e2 : String)
    (fn1 ln1 fu1 iu1 fn2 ln2 fu2 iu2 : Option String)
    (hclerk : ∀ r ∈ db, r.clerk_id ≠ cid)
    (hid : ∀ r ∈ db, r.id ≠ cid)
    (he1 : ∀ r ∈ db, r.email ≠ e1)
    (he2 : ∀ r ∈ db, r.email ≠ e2)
    (_hne : e1 ≠ e2) :
    ∃ u1 db1 u2 db2,
      create_or_update_user db cid e1 fn1 ln1 fu1 iu1 = Except.ok (u1, db1)
      ∧ create_or_update_user db1 cid e2 fn2 ln2 fu2 iu2 = Except.ok (u2, db2)
      ∧ (db2.filter (fun r => r.clerk_id == cid)).length = 1
      ∧ u2.email = e2 ∧ u2.id = u1.id ∧ u2.clerk_id = cid := by
  refine ⟨⟨cid, cid, e1, fn1, ln1, fu1, iu1⟩,
    db ++ [⟨cid, cid, e1, fn1, ln1, fu1, iu1⟩],
    ⟨cid, cid, e2, fn2, ln2, fu2, iu2⟩,
    db ++ [⟨cid, cid, e2, fn2, ln2, fu2, iu2⟩], ?_, ?_, ?_, rfl, rfl, rfl⟩
  · have hfind1 : db.find? (fun r => r.clerk_id == cid) = none := by
      rw [List.find?_eq_none]
      intro r hr
      simp [hclerk r hr]
    have hany1 : (db.any fun r => r.id == cid || r.clerk_id == cid || r.email == e1)
        = false := by
      rw [List.any_eq_false]
      intro r hr
      simp [hid r hr, hclerk r hr, he1 r hr]
    have hfind2 : (db ++ [(⟨cid, cid, e1, fn1, ln1, fu1, iu1⟩ : UserRow)]).find?
        (fun r => r.id == cid) = some ⟨cid, cid, e1, fn1, ln1, fu1, iu1⟩ :=
      find?_append_singleton _ _ _ (fun x hx => by simp [hid x hx]) (by simp)
    simp only [create_or_update_user, hfind1, hany1, hfind2,
      Bool.false_eq_true, if_false]
  · have hfind3 : ((db ++ [(⟨cid, cid, e1, fn1, ln1, fu1, iu1⟩ : UserRow)]).find?
        (fun r => r.clerk_id == cid))
        = some ⟨cid, cid, e1, fn1, ln1, fu1, iu1⟩ :=
      find?_append_singleton _ _ _ (fun x hx => by simp [hclerk x hx]) (by simp)
    have hany2 : ((db ++ [(⟨cid, cid, e1, fn1, ln1, fu1, iu1⟩ : UserRow)]).any
        fun r => r.clerk_id != cid && r.email == e2) = false := by
      rw [List.any_eq_false]
      intro r hr
      rcases List.mem_append.1 hr with h | h
      · simp [he2 r h]
      · rw [List.mem_singleton.1 h]
        simp
    have hmap : ((db ++ [(⟨cid, cid, e1, fn1, ln1, fu1, iu1⟩ : UserRow)]).map
        (fun r => if r.clerk_id == cid then
            { r with email := e2, first_name := fn2, last_name := ln2,
                     full_name := fu2, image_url := iu2 }
          else r))
        = db ++ [⟨cid, cid, e2, fn2, ln2, fu2, iu2⟩] := by
      rw [List.map_append]
      congr 1
      · exact map_id_of_mem _ _ (fun x hx => by rw [if_neg (by simp [hclerk x hx])])
      · simp
    have hfind4 : ((db ++ [(⟨cid, cid, e2, fn2, ln2, fu2, iu2⟩ : UserRow)]).find?
        (fun r => r.id == cid)) = some ⟨cid, cid, e2, fn2, ln2, fu2, iu2⟩ :=
      find?_append_singleton _ _ _ (fun x hx => by simp [hid x hx]) (by simp)
    simp only [create_or_update_user, hfind3, hany2, Bool.false_eq_true, if_false,
      hmap, hfind4]
  · rw [List.filter_append]
    have hnil : db.filter (fun r => r.clerk_id == cid) = [] := by
      rw [List.filter_eq_nil_iff]
      intro r hr
      simp [hclerk r hr]
    rw [hnil]
    simp

/-- Witness for C9: the empty table, one external id, two distinct emails. -/
theorem c9_upsert_stable_id_witness :
    ∃ u1 db1 u2 db2,
      create_or_update_user [] "user_1" "a@example.com" none none none none
          = Except.ok (u1, db1)
      ∧ create_or_update_user db1 "user_1" "b@example.com" none none none none
          = Except.ok (u2, db2)
      ∧ (db2.filter (fun r => r.clerk_id == "user_1")).length = 1
      ∧ u2.email = "b@example.com" ∧ u2.id = u1.id ∧ u2.clerk_id = "user_1" := by
  exact c9_upsert_stable_id [] "user_1" "a@example.com" "b@example.com"
    none none none none none none none none
    (by simp) (by simp) (by simp) (by simp) (by decide)

/-! ## Document export (`routes/word_editor.py`)

`build_docx_document` and `build_pdf_document` are modelled by the sequence
of paragraph texts respectively flowable elements they emit, together with
the margin arithmetic; the rendering libraries themselves are opaque. -/

structure PMargins where
  top : ℚ
  bottom : ℚ
  left : ℚ
  right : ℚ
deriving DecidableEq

structure MarginsPatch where
  top : Option ℚ
  bottom : Option ℚ
  left : Option ℚ
  right : Option ℚ

/-- The `margins` entry of `DEFAULT_FORMATTING` (lines 28-33): one inch on
every side. -/
def DEFAULT_MARGINS : PMargins := ⟨1, 1, 1, 1⟩

/-- The `margins` branch of `merge_formatting` (lines 46-49): a copy of the
existing margins updated with every non-`None` entry of the request. -/
def merge_margins (existing : PMargins) (patch : MarginsPatch) : PMargins :=
  { top := patch.top.getD existing.top
    bottom := patch.bottom.getD existing.bottom
    left := patch.left.getD existing.left
    right := patch.right.getD existing.right }

/-- Lines 168-172 of `build_pdf_document`: inches are converted to points by
multiplying with 72. -/
def pdf_margins_points (m : PMargins) : PMargins :=
  ⟨m.top * 72, m.bottom * 72, m.left * 72, m.right * 72⟩

/-- Lines 144-153 of `build_docx_document`: the content is split on newlines;
each line becomes one paragraph whose run holds the right-stripped line, or a
single space when the line is blank. -/
def docx_paragraph_texts (content : List Char) : List (List Char) :=
  (pySplitChar '\n' content).map (fun para =>
    let text := pyRstrip para
    if (pyStrip text).isEmpty then [' '] else text)

inductive PdfElement where
  | paragraph (text : List Char)
  | spacer (width height : ℚ)
deriving DecidableEq

/-- Lines 232-239 of `build_pdf_document`: a blank line becomes a spacer of
height `fontSize * 0.6`; a non-blank line becomes a paragraph (with newlines
replaced by `<br/>`) followed by a spacer of height `fontSize * 0.3`. -/
def pdf_elements (content : List Char) (font_size : ℚ) : List PdfElement :=
  ((pySplitChar '\n' content).map (fun para =>
    let text := pyStrip para
    if text.isEmpty then [PdfElement.spacer 1 (font_size * (0.6 : ℚ))]
    else [PdfElement.paragraph (pyReplace text ['\n'] ("<br/>".data)),
      PdfElement.spacer 1 (font_size * (0.3 : ℚ))])).flatten

def pdfTextOf : PdfElement → Option (List Char)
  | PdfElement.paragraph t => some t
  | PdfElement.spacer _ _ => none

/-- Claim C10: rendering the content `"Hello\n\nWorld"` under default
formatting produces, in the DOCX path, the three paragraphs `"Hello"`, a
single space, `"World"` in order; in the PDF path the two text paragraphs
`"Hello"` and `"World"` separated by spacer elements (the blank line
contributing the `fontSize * 0.6` spacer between them); and a margins
request of `top = 2` inches merged over the defaults gives a PDF top margin
of `2 * 72 = 144` points. -/
theorem c10_export_hello_world :
    docx_paragraph_texts ("Hello\n\nWorld".data)
        = [("Hello".data), [' '], ("World".data)]
    ∧ pdf_elements ("Hello\n\nWorld".data) 12
        = [PdfElement.paragraph ("Hello".data), PdfElement.spacer 1 (12 * (0.3 : ℚ)),
           PdfElement.spacer 1 (12 * (0.6 : ℚ)),
           PdfElement.paragraph ("World".data), PdfElement.spacer 1 (12 * (0.3 : ℚ))]
    ∧ (pdf_elements ("Hello\n\nWorld".data) 12).filterMap pdfTextOf
        = [("Hello".data), ("World".data)]
    ∧ (pdf_margins_points (merge_margins DEFAULT_MARGINS ⟨some 2, none, none, none⟩)).top
        = 144 := by
  refine ⟨by decide, by rfl, by rfl, ?_⟩
  norm_num [pdf_margins_points, merge_margins, DEFAULT_MARGINS]

end StudyAI
